import Mathlib

/-!
Verification of the document ingestion and content-extraction core of a
RAG (retrieval-augmented generation) service written in TypeScript.

The development shallowly embeds the relevant source functions:

* src/loaders/types.ts: detectDocumentType; loaders/index.ts: DocumentLoaderFactory
* src/services/scraper.ts: detectScraperEngine, scrapeUrl, CheerioScraper
  (extractTitle, extractOgImage, content-length gate), PlaywrightScraper
* src/services/document.ts: processDocument (chunk filtering, metadata and
  index assignment, batched embedding, 384-dimension validation, batched
  upsert with retry/backoff, final manifest)

JavaScript string operations are embedded as functions on the character
list of a Lean String (the source data are ASCII, where JS UTF-16 units,
Unicode code points and Lean Chars agree).  External collaborators (the
HTTP client, the HTML parser, the embedding service, the vector store,
the clock and the UUID generator) are passed in as explicit parameters,
so every definition stays executable.
-/

/-- Embeds the JavaScript `String.prototype.trim`: removes whitespace from
both ends of the string. -/
def jsTrim (s : String) : String :=
  String.mk (((s.data.dropWhile Char.isWhitespace).reverse.dropWhile Char.isWhitespace).reverse)

/-- Embeds the JavaScript `String.prototype.toLowerCase` (ASCII range). -/
def jsToLower (s : String) : String :=
  String.mk (s.data.map Char.toLower)

/-- Embeds the JavaScript `String.prototype.startsWith`. -/
def jsStartsWith (s pre : String) : Bool :=
  pre.data.isPrefixOf s.data

/-- Embeds the JavaScript `String.prototype.endsWith`. -/
def jsEndsWith (s suf : String) : Bool :=
  suf.data.isSuffixOf s.data

/-- Boolean substring containment on character lists (helper for
`jsIncludes`). -/
def containsSub (l pat : List Char) : Bool :=
  match l with
  | [] => pat.isEmpty
  | _ :: t => pat.isPrefixOf l || containsSub t pat

/-- Embeds the JavaScript `String.prototype.includes`. -/
def jsIncludes (s sub : String) : Bool :=
  containsSub s.data sub.data

/-- Embeds `fileName.split(".").pop()`: the segment of the string after its
last dot, or the whole string when it has no dot. -/
def lastExt (s : String) : String :=
  String.mk ((s.data.reverse.takeWhile (fun c => c ≠ '.')).reverse)

/-- Embeds the JavaScript truthiness test on a `string | undefined` value:
`undefined` and the empty string are falsy. -/
def jsTruthy (s : Option String) : Bool :=
  match s with
  | none => false
  | some v => v ≠ ""

/-! ## Document loaders (src/loaders/types.ts, src/loaders/index.ts) -/

/-- The DocumentType enum of src/loaders/types.ts. -/
inductive DocumentType
  | pdf
  | epub
  | url
deriving DecidableEq

/-- The three concrete loader classes the DocumentLoaderFactory can
instantiate. -/
inductive LoaderKind
  | pdfLoader
  | epubLoader
  | urlLoader
deriving DecidableEq

/-- Embeds detectDocumentType of src/loaders/types.ts.  A locator starting
with the literal schemes http:// or https:// is a URL; otherwise the
segment after the last dot of the lowercased locator selects pdf or epub,
and anything else throws (modelled as Except.error carrying the message). -/
def detectDocumentType (fileName : String) : Except String DocumentType :=
  if jsStartsWith fileName "http://" || jsStartsWith fileName "https://" then
    Except.ok DocumentType.url
  else
    let ext := lastExt (jsToLower fileName)
    if ext = "pdf" then Except.ok DocumentType.pdf
    else if ext = "epub" then Except.ok DocumentType.epub
    else Except.error ("Tipo de arquivo não suportado: " ++ ext ++ ". Suportados: PDF, EPUB, URL")

/-- Embeds DocumentLoaderFactory.createLoader: maps a document type to a
loader instance. -/
def createLoader : DocumentType → LoaderKind
  | DocumentType.pdf => LoaderKind.pdfLoader
  | DocumentType.epub => LoaderKind.epubLoader
  | DocumentType.url => LoaderKind.urlLoader

/-- Embeds DocumentLoaderFactory.createLoaderFromFileName: detect the type,
then create the loader; a detection error propagates. -/
def createLoaderFromFileName (fileName : String) : Except String LoaderKind :=
  (detectDocumentType fileName).map createLoader

/-- Modelled from the spec: a locator "has a .pdf / .epub extension" when
its lowercased form ends with a dot followed by that extension.  Used to
compare the spec's wording about extension-based selection with the
source's split-on-dot computation. -/
def hasExtension (fileName ext : String) : Bool :=
  jsEndsWith (jsToLower fileName) ("." ++ ext)

/-! ## Content extractor (src/services/scraper.ts) -/

/-- The ScraperEngine union type. -/
inductive ScraperEngine
  | cheerio
  | playwright
deriving DecidableEq

/-- The PLAYWRIGHT_REQUIRED_DOMAINS constant. -/
def PLAYWRIGHT_REQUIRED_DOMAINS : List String :=
  ["twitter.com", "x.com", "instagram.com", "linkedin.com", "facebook.com", "medium.com"]

/-- Embeds detectScraperEngine: playwright when the lowercased URL contains
one of the listed domain strings (a substring test via
String.prototype.includes), cheerio otherwise. -/
def detectScraperEngine (url : String) : ScraperEngine :=
  if PLAYWRIGHT_REQUIRED_DOMAINS.any (fun domain => jsIncludes (jsToLower url) domain) then
    ScraperEngine.playwright
  else
    ScraperEngine.cheerio

/-- Embeds the engine choice of scrapeUrl: an explicitly passed engine wins,
otherwise detectScraperEngine decides. -/
def selectEngine : Option ScraperEngine → String → ScraperEngine
  | some e, _ => e
  | none, url => detectScraperEngine url

/-- Modelled from the spec: the domain (host) component of a URL, as used by
the spec sentence that strategy selection inspects "the URL's domain". -/
def urlDomain (url : String) : String :=
  let rest :=
    if "https://".data.isPrefixOf url.data then url.data.drop 8
    else if "http://".data.isPrefixOf url.data then url.data.drop 7
    else url.data
  String.mk (rest.takeWhile (fun c => c ≠ '/'))

/-- Embeds CheerioScraper.extractTitle.  The three candidates are the
results of the cheerio queries: the og:title meta content attribute
(undefined when the attribute is missing), the text of the title tag and
the text of the first h1 (both the empty string when the element is
missing).  Each JavaScript `if (x)` is a truthiness test. -/
def extractTitle (ogTitle : Option String) (titleText h1Text : String) : Option String :=
  if jsTruthy ogTitle then some (jsTrim (ogTitle.getD ""))
  else if titleText ≠ "" then some (jsTrim titleText)
  else if h1Text ≠ "" then some (jsTrim h1Text)
  else none

/-- Embeds CheerioScraper.extractOgImage.  `resolve v` stands for
`new URL(v, baseUrl).href`: some absolute URL on success, none when the
constructor throws, in which case the raw value is returned. -/
def extractOgImage (ogImage : Option String) (resolve : String → Option String) : Option String :=
  if jsTruthy ogImage then
    let v := ogImage.getD ""
    match resolve v with
    | some abs => some abs
    | none => some v
  else
    none

/-- The ScrapedContent interface. -/
structure ScrapedContent where
  content : String
  title : Option String
  ogImage : Option String
  url : String
  scrapedAt : String
deriving DecidableEq

/-- The distinguishable error kinds thrown by the two scrapers. -/
inductive ScrapeError
  | httpStatus (status : Nat)
  | timeout
  | network
  | tooShort (length : Nat)
  | loadFailure
deriving DecidableEq

/-- Abstraction of the cheerio-parsed page handed to CheerioScraper.scrape:
the metadata query results and the cleaned main-content text (the result of
extractMainContent followed by htmlToCleanText). -/
structure Page where
  ogTitle : Option String
  titleText : String
  h1Text : String
  ogImage : Option String
  cleanText : String
deriving DecidableEq

/-- Outcome of the axios GET.  axios's default validateStatus resolves only
2xx responses and rejects everything else with the response attached. -/
inductive HttpOutcome
  | response (status : Nat) (page : Page)
  | timedOut
  | networkFailure
deriving DecidableEq

/-- Embeds CheerioScraper.scrape.  A rejected promise with a response
becomes an httpStatus error, a timeout (ECONNABORTED) a timeout error and
a request without response a network error; a resolved 2xx response passes
the explicit `status !== 200` check, metadata extraction and the 100
character minimum-content gate. -/
def cheerioScrape (url scrapedAt : String) (resolve : String → Option String)
    (out : HttpOutcome) : Except ScrapeError ScrapedContent :=
  match out with
  | HttpOutcome.timedOut => Except.error ScrapeError.timeout
  | HttpOutcome.networkFailure => Except.error ScrapeError.network
  | HttpOutcome.response status page =>
    if status < 200 ∨ 300 ≤ status then Except.error (ScrapeError.httpStatus status)
    else if status ≠ 200 then Except.error (ScrapeError.httpStatus status)
    else
      let title := extractTitle page.ogTitle page.titleText page.h1Text
      let ogImage := extractOgImage page.ogImage resolve
      if page.cleanText.length < 100 then
        Except.error (ScrapeError.tooShort page.cleanText.length)
      else
        Except.ok ⟨page.cleanText, title, ogImage, url, scrapedAt⟩

/-- The JSON payload PlaywrightScraper.scrape reads back from the page
evaluation: page.title() (always a string), the og:image content (null when
the selector fails) and the raw main-content text. -/
structure PlaywrightData where
  title : String
  ogImage : Option String
  content : String
deriving DecidableEq

/-- Embeds PlaywrightScraper.scrape.  `loaded` is none when the loader
returns no documents; `clean` stands for the cleanText regex cleanup.  The
title and og:image fields go through `|| null`, mapping the empty string to
null, and the cleaned content must reach 100 characters. -/
def playwrightScrape (url scrapedAt : String) (clean : String → String)
    (loaded : Option PlaywrightData) : Except ScrapeError ScrapedContent :=
  match loaded with
  | none => Except.error ScrapeError.loadFailure
  | some d =>
    let cleanText := clean d.content
    if cleanText.length < 100 then
      Except.error (ScrapeError.tooShort cleanText.length)
    else
      Except.ok ⟨cleanText,
        (if d.title ≠ "" then some d.title else none),
        (match d.ogImage with
         | some v => if v ≠ "" then some v else none
         | none => none),
        url, scrapedAt⟩

/-! ## Ingestion pipeline (src/services/document.ts, processDocument) -/

/-- The expected embedding dimension of the vector-store collection. -/
def EXPECTED_DIMENSION : Nat := 384

/-- A chunk as produced by textSplitter.splitDocuments: its pageContent and
the optional metadata.loc.pageNumber.  Splitting itself is performed by the
external RecursiveCharacterTextSplitter, so the pipeline model starts from
its output. -/
structure SplitChunk where
  pageContent : String
  page : Option Nat
deriving DecidableEq

/-- A chunk after metadata assignment (the object literal built in step 3 of
processDocument, with the metadata record flattened into the structure).
The id is a fresh uuidv4 per chunk, modelled by the generator argument. -/
structure ChunkWithMeta where
  id : String
  text : String
  documentId : String
  chunkIndex : Nat
  fileName : String
  uploadAt : String
  page : Option Nat
deriving DecidableEq

/-- A JSON payload value: string, integer or undefined.  Vector components
are abstracted to integers, since the pipeline only inspects vector
length. -/
inductive PVal
  | s (v : String)
  | n (v : Nat)
  | undef
deriving DecidableEq

/-- A point upserted to the vector store. -/
structure Point where
  id : String
  vector : List Int
  payload : List (String × PVal)
deriving DecidableEq

/-- The payload object literal `{ text: chunk.text, ...chunk.metadata }`,
with keys in JavaScript insertion order: text first, then the metadata
fields in their declaration order. -/
def payloadOf (c : ChunkWithMeta) : List (String × PVal) :=
  [("text", PVal.s c.text),
   ("documentId", PVal.s c.documentId),
   ("chunkIndex", PVal.n c.chunkIndex),
   ("fileName", PVal.s c.fileName),
   ("uploadAt", PVal.s c.uploadAt),
   ("page", match c.page with
            | some p => PVal.n p
            | none => PVal.undef)]

/-- The post-split filter: keep chunks whose trimmed pageContent has at
least 10 characters. -/
def validChunksOf (chunks : List SplitChunk) : List SplitChunk :=
  chunks.filter (fun c => 10 ≤ (jsTrim c.pageContent).length)

/-- Step 3 of processDocument: map each surviving chunk, with its position,
to the object carrying a fresh id, the trimmed text and the metadata
record.  `gen i` models the uuidv4() call for the chunk at position i and
`uploadAt` the toISOString() of the wall clock. -/
def withMetadata (documentId fileName uploadAt : String) (gen : Nat → String)
    (valid : List SplitChunk) : List ChunkWithMeta :=
  valid.enum.map (fun p =>
    ⟨gen p.1, jsTrim p.2.pageContent, documentId, p.1, fileName, uploadAt, p.2.page⟩)

/-- Fuel-driven core of the slicing loops `for (i = 0; i < n; i += 50)`:
successive slices of 50 elements.  Both the embedding loop
(EMBEDDING_BATCH_SIZE = 50) and the upsert loop (BATCH_SIZE = 50) stride by
50; the fuel makes the recursion structural, and any fuel at least the list
length gives the loop's behaviour. -/
def sliceAux {α : Type} (fuel : Nat) (l : List α) : List (List α) :=
  match fuel, l with
  | 0, _ => []
  | _, [] => []
  | f + 1, x :: xs => ((x :: xs).take 50) :: sliceAux f ((x :: xs).drop 50)

/-- The batches visited by a stride-50 loop over the list. -/
def sliceBatches {α : Type} (l : List α) : List (List α) :=
  sliceAux l.length l

/-- Step 4 of processDocument: the embedding batches are submitted
sequentially to embeddings.embedDocuments and the returned vectors are
pushed into one list.  Returns the list of calls issued (each with its
texts) and the concatenated vectors. -/
def embedStage (embedFn : List String → List (List Int)) (texts : List String) :
    List (List String) × List (List Int) :=
  let calls := sliceBatches texts
  (calls, (calls.map embedFn).flatten)

/-- Step 5's validation: pair each chunk with the vector at its index; a
missing vector or one whose length differs from EXPECTED_DIMENSION maps to
null and is filtered out; the rest become points whose id is the chunk id. -/
def validDataOf (meta : List ChunkWithMeta) (vectors : List (List Int)) : List Point :=
  meta.enum.filterMap (fun p =>
    match vectors.get? p.1 with
    | none => none
    | some v =>
      if v.length = EXPECTED_DIMENSION then some ⟨p.2.id, v, payloadOf p.2⟩
      else none)

/-- Outcome of the per-batch retry loop: whether an attempt succeeded, how
many attempts ran, and the delays slept between them. -/
structure RetryOutcome where
  ok : Bool
  attempts : Nat
  delays : List Nat
deriving DecidableEq

/-- Embeds the retry loop of step 5: `retries` starts at 3 and `delay` at
1000; a failed attempt decrements retries, propagates the error when they
hit zero, and otherwise sleeps `delay` and doubles it.  `succ a` tells
whether attempt number `a` (0-based) of the upsert succeeds. -/
def retryUpsert (succ : Nat → Bool) : Nat → Nat → Nat → List Nat → RetryOutcome
  | 0, _, attempt, delays => ⟨false, attempt, delays⟩
  | r + 1, delay, attempt, delays =>
    if succ attempt then ⟨true, attempt + 1, delays⟩
    else if r = 0 then ⟨false, attempt + 1, delays⟩
    else retryUpsert succ r (delay * 2) (attempt + 1) (delays ++ [delay])

/-- Observable trace of one batch: attempts used and delays slept. -/
structure BatchTrace where
  attempts : Nat
  delays : List Nat
deriving DecidableEq

/-- Result of the batched-upsert loop: the points committed to the store,
the per-batch traces, and whether a batch exhausted its retries (in which
case the loop rethrows and later batches never run). -/
structure WriteResult (α : Type) where
  committed : List α
  traces : List BatchTrace
  failed : Bool
deriving DecidableEq

/-- The batched-upsert loop over the batches, carrying the batch index (for
the success oracle), the points committed so far and the traces. -/
def writeAllAux {α : Type} (succ : Nat → Nat → Bool) :
    Nat → List α → List BatchTrace → List (List α) → WriteResult α
  | _, committed, traces, [] => ⟨committed, traces, false⟩
  | idx, committed, traces, b :: rest =>
    let r := retryUpsert (succ idx) 3 1000 0 []
    if r.ok then
      writeAllAux succ (idx + 1) (committed ++ b) (traces ++ [⟨r.attempts, r.delays⟩]) rest
    else
      ⟨committed, traces ++ [⟨r.attempts, r.delays⟩], true⟩

/-- Step 5's write phase: upsert the batches in order, each under the retry
policy; `succ b a` tells whether attempt `a` of batch `b` succeeds. -/
def writeAll {α : Type} (succ : Nat → Nat → Bool) (batches : List (List α)) : WriteResult α :=
  writeAllAux succ 0 [] [] batches

/-- Decidable equality for Except results, so that concrete pipeline runs
can be checked by evaluation. -/
instance instDecEqExcept {ε α : Type} [DecidableEq ε] [DecidableEq α] :
    DecidableEq (Except ε α) := fun x y =>
  match x, y with
  | Except.ok a, Except.ok b =>
    if h : a = b then isTrue (congrArg Except.ok h)
    else isFalse (fun he => h (Except.ok.inj he))
  | Except.error e, Except.error f =>
    if h : e = f then isTrue (congrArg Except.error h)
    else isFalse (fun he => h (Except.error.inj he))
  | Except.ok _, Except.error _ => isFalse (fun he => Except.noConfusion he)
  | Except.error _, Except.ok _ => isFalse (fun he => Except.noConfusion he)

/-- The errors processDocument can throw after splitting (connectivity and
loading failures happen before the modelled stages). -/
inductive PipelineError
  | noChunks
  | noValidChunks
  | noValidVectors
  | upsertFailed
deriving DecidableEq

/-- The UploadResponse returned on success. -/
structure UploadResponse where
  success : Bool
  documentId : String
  chunksCount : Nat
  message : String
deriving DecidableEq

/-- Observable outcome of one processDocument call: its returned value or
error, the points committed to the vector store, the embedding calls
issued and the upsert traces. -/
structure PipeOutcome where
  result : Except PipelineError UploadResponse
  store : List Point
  embedCalls : List (List String)
  traces : List BatchTrace
deriving DecidableEq

/-- The chunk set with metadata that processDocument builds from the split
output (filtering, then id/index assignment). -/
def pipelineMeta (chunks : List SplitChunk) (documentId fileName uploadAt : String)
    (gen : Nat → String) : List ChunkWithMeta :=
  withMetadata documentId fileName uploadAt gen (validChunksOf chunks)

/-- The points that survive dimension validation in one processDocument
call. -/
def validPointsOf (chunks : List SplitChunk) (documentId fileName uploadAt : String)
    (gen : Nat → String) (embedFn : List String → List (List Int)) : List Point :=
  let meta := pipelineMeta chunks documentId fileName uploadAt gen
  validDataOf meta (embedStage embedFn (meta.map (fun c => c.text))).2

/-- Embeds steps 2 to 6 of processDocument of src/services/document.ts:
empty-split check, the 10-character filter with its no-valid-chunks error,
metadata and index assignment, batched embedding, dimension validation with
its no-valid-vectors error, the batched retried upsert, and the final
manifest whose chunksCount is documentsChunksWithMetadata.length. -/
def processDocument (chunks : List SplitChunk) (documentId fileName uploadAt : String)
    (gen : Nat → String) (embedFn : List String → List (List Int))
    (upsertOk : Nat → Nat → Bool) : PipeOutcome :=
  if chunks.isEmpty then ⟨Except.error PipelineError.noChunks, [], [], []⟩
  else
    let validChunks := validChunksOf chunks
    if validChunks.isEmpty then ⟨Except.error PipelineError.noValidChunks, [], [], []⟩
    else
      let meta := withMetadata documentId fileName uploadAt gen validChunks
      let texts := meta.map (fun c => c.text)
      let embedded := embedStage embedFn texts
      let validData := validDataOf meta embedded.2
      if validData.isEmpty then
        ⟨Except.error PipelineError.noValidVectors, [], embedded.1, []⟩
      else
        let w := writeAll upsertOk (sliceBatches validData)
        if w.failed then
          ⟨Except.error PipelineError.upsertFailed, w.committed, embedded.1, w.traces⟩
        else
          ⟨Except.ok ⟨true, documentId, meta.length, "Documento processado com sucesso!"⟩,
            w.committed, embedded.1, w.traces⟩

/-! ## Concrete fixtures

Closed evaluation theorems instantiate the external collaborators with the
following concrete values. -/

/-- Two split chunks, both surviving the 10-character filter. -/
def exChunks : List SplitChunk := [⟨"abcdefghij", none⟩, ⟨"0123456789", some 2⟩]

/-- A single split chunk surviving the 10-character filter. -/
def exChunkSingle : List SplitChunk := [⟨"abcdefghij", none⟩]

/-- A uuid generator giving distinct ids to the first two chunks. -/
def exGen : Nat → String := fun i => if i = 0 then "c0" else "c1"

/-- A uuid generator with a single fixed id. -/
def exGenSingle : Nat → String := fun _ => "chunk-id-0"

/-- An embedding service returning a 384-dimensional vector for the first
fixture text and a 256-dimensional one for everything else. -/
def exEmbed : List String → List (List Int) :=
  fun ts => ts.map (fun t => if t = "abcdefghij" then List.replicate 384 0 else List.replicate 256 0)

/-- An embedding service returning 384-dimensional vectors throughout. -/
def exEmbed384 : List String → List (List Int) :=
  fun ts => ts.map (fun _ => List.replicate 384 0)

/-- A vector store whose upserts always succeed. -/
def exUpsert : Nat → Nat → Bool := fun _ _ => true

/-- A vector store for which every upsert fails twice and succeeds on the
third attempt. -/
def exSucc3rd : Nat → Nat → Bool := fun _ a => a = 2

/-- A URL resolver that always fails (new URL always throws). -/
def exResolveNone : String → Option String := fun _ => none

/-- A concrete point. -/
def exPoint : Point := ⟨"a", [], []⟩

/-- A concrete cheerio page whose cleaned text is 3 words long. -/
def exShortPage : Page := ⟨none, "", "", none, "too short"⟩

/-! ## Supporting lemmas -/

theorem sliceAux_eq_of_le {α : Type} (f₁ f₂ : Nat) (l : List α)
    (h₁ : l.length ≤ f₁) (h₂ : l.length ≤ f₂) : sliceAux f₁ l = sliceAux f₂ l := by
  induction f₁ generalizing f₂ l with
  | zero =>
    have : l = [] := List.eq_nil_of_length_eq_zero (Nat.le_zero.mp h₁)
    subst this
    cases f₂ <;> simp [sliceAux]
  | succ f₁ ih =>
    cases f₂ with
    | zero =>
      have : l = [] := List.eq_nil_of_length_eq_zero (Nat.le_zero.mp h₂)
      subst this
      simp [sliceAux]
    | succ f₂ =>
      cases l with
      | nil => simp [sliceAux]
      | cons x xs =>
        simp only [sliceAux]
        congr 1
        apply ih
        · simp only [List.length_drop, List.length_cons]
          simp only [List.length_cons] at h₁
          omega
        · simp only [List.length_drop, List.length_cons]
          simp only [List.length_cons] at h₂
          omega

theorem sliceBatches_nil {α : Type} : sliceBatches ([] : List α) = [] := rfl

theorem sliceBatches_cons {α : Type} (x : α) (xs : List α) :
    sliceBatches (x :: xs) = ((x :: xs).take 50) :: sliceBatches ((x :: xs).drop 50) := by
  show sliceAux (xs.length + 1) (x :: xs) = _
  simp only [sliceAux]
  congr 1
  apply sliceAux_eq_of_le
  · simp only [List.length_drop, List.length_cons]; omega
  · exact Nat.le_refl _

theorem sliceAux_flatten {α : Type} (f : Nat) (l : List α) (h : l.length ≤ f) :
    (sliceAux f l).flatten = l := by
  induction f generalizing l with
  | zero =>
    have : l = [] := List.eq_nil_of_length_eq_zero (Nat.le_zero.mp h)
    simp [this, sliceAux]
  | succ f ih =>
    cases l with
    | nil => simp [sliceAux]
    | cons x xs =>
      simp only [sliceAux, List.flatten_cons]
      rw [ih]
      · exact List.take_append_drop 50 (x :: xs)
      · simp only [List.length_drop, List.length_cons]
        simp only [List.length_cons] at h
        omega

theorem sliceBatches_flatten {α : Type} (l : List α) : (sliceBatches l).flatten = l :=
  sliceAux_flatten l.length l (Nat.le_refl _)

theorem sliceAux_length {α : Type} (f : Nat) (l : List α) (h : l.length ≤ f) :
    (sliceAux f l).length = (l.length + 49) / 50 := by
  induction f generalizing l with
  | zero =>
    have : l = [] := List.eq_nil_of_length_eq_zero (Nat.le_zero.mp h)
    simp [this, sliceAux]
  | succ f ih =>
    cases l with
    | nil => simp [sliceAux]
    | cons x xs =>
      simp only [sliceAux, List.length_cons]
      rw [ih]
      · simp only [List.length_drop, List.length_cons]
        omega
      · simp only [List.length_drop, List.length_cons]
        simp only [List.length_cons] at h
        omega

theorem sliceBatches_length {α : Type} (l : List α) :
    (sliceBatches l).length = (l.length + 49) / 50 :=
  sliceAux_length l.length l (Nat.le_refl _)

theorem sliceAux_map_length {α : Type} (f : Nat) (l : List α) (h : l.length ≤ f) :
    (sliceAux f l).map List.length =
      List.replicate (l.length / 50) 50 ++
        (if l.length % 50 = 0 then [] else [l.length % 50]) := by
  induction f generalizing l with
  | zero =>
    have : l = [] := List.eq_nil_of_length_eq_zero (Nat.le_zero.mp h)
    simp [this, sliceAux]
  | succ f ih =>
    cases l with
    | nil => simp [sliceAux]
    | cons x xs =>
      simp only [sliceAux, List.map_cons, List.length_take, List.length_cons]
      rw [ih]
      · simp only [List.length_drop, List.length_cons]
        rcases Nat.lt_or_ge xs.length 49 with hlt | hge
        · have h1 : min 50 (xs.length + 1) = xs.length + 1 := by omega
          have h2 : xs.length + 1 - 50 = 0 := by omega
          have h3 : (xs.length + 1) / 50 = 0 := by omega
          have h4 : (xs.length + 1) % 50 = xs.length + 1 := by omega
          simp [h1, h2, h3, h4]
        · have h1 : min 50 (xs.length + 1) = 50 := by omega
          have h2 : (xs.length + 1 - 50) / 50 = (xs.length + 1) / 50 - 1 := by omega
          have h3 : (xs.length + 1 - 50) % 50 = (xs.length + 1) % 50 := by omega
          have h4 : (xs.length + 1) / 50 = ((xs.length + 1) / 50 - 1) + 1 := by omega
          rw [h1, h2, h3]
          conv_rhs => rw [h4]
          rw [List.replicate_succ, List.cons_append]
      · simp only [List.length_drop, List.length_cons]
        simp only [List.length_cons] at h
        omega

theorem sliceBatches_map_length {α : Type} (l : List α) :
    (sliceBatches l).map List.length =
      List.replicate (l.length / 50) 50 ++
        (if l.length % 50 = 0 then [] else [l.length % 50]) :=
  sliceAux_map_length l.length l (Nat.le_refl _)

theorem retryUpsert_spec (succ : Nat → Bool) :
    (let r := retryUpsert succ 3 1000 0 []
     (r.attempts ≤ 3 ∧ r.delays = List.take (r.attempts - 1) [1000, 2000]) ∧
       (r.ok = false ↔ succ 0 = false ∧ succ 1 = false ∧ succ 2 = false)) := by
  cases h0 : succ 0 <;> cases h1 : succ 1 <;> cases h2 : succ 2 <;>
    simp [retryUpsert, h0, h1, h2]

theorem writeAllAux_spec {α : Type} (succ : Nat → Nat → Bool) (batches : List (List α)) :
    ∀ (idx : Nat) (committed : List α) (traces : List BatchTrace),
    (let w := writeAllAux succ idx committed traces batches
     (∀ t ∈ w.traces,
        t ∈ traces ∨ (t.attempts ≤ 3 ∧ t.delays = List.take (t.attempts - 1) [1000, 2000])) ∧
       (w.failed = false → w.committed = committed ++ batches.flatten) ∧
       (w.failed = true →
         ∃ k, k < batches.length ∧ w.committed = committed ++ (batches.take k).flatten ∧
           (∀ a, a < 3 → succ (idx + k) a = false) ∧
           (∀ j, j < k → ∃ a, a < 3 ∧ succ (idx + j) a = true))) := by
  induction batches with
  | nil =>
    intro idx committed traces
    refine ⟨fun t ht => Or.inl ht, fun _ => by simp [writeAllAux], fun hf => ?_⟩
    simp [writeAllAux] at hf
  | cons b rest ih =>
    intro idx committed traces
    have hr := retryUpsert_spec (succ idx)
    simp only at hr
    cases hok : (retryUpsert (succ idx) 3 1000 0 []).ok with
    | true =>
      have hnotall : ∃ a, a < 3 ∧ succ idx a = true := by
        rcases hr with ⟨_, hiff⟩
        by_contra hno
        push_neg at hno
        have h0 : succ idx 0 = false := by
          have := hno 0 (by omega); simpa using this
        have h1 : succ idx 1 = false := by
          have := hno 1 (by omega); simpa using this
        have h2 : succ idx 2 = false := by
          have := hno 2 (by omega); simpa using this
        rw [hiff.mpr ⟨h0, h1, h2⟩] at hok
        exact Bool.false_ne_true hok
      have hw : writeAllAux succ idx committed traces (b :: rest) =
          writeAllAux succ (idx + 1) (committed ++ b)
            (traces ++ [⟨(retryUpsert (succ idx) 3 1000 0 []).attempts,
              (retryUpsert (succ idx) 3 1000 0 []).delays⟩]) rest := by
        simp only [writeAllAux, hok, if_true]
      rw [hw]
      obtain ⟨iha, ihb, ihc⟩ := ih (idx + 1) (committed ++ b)
        (traces ++ [⟨(retryUpsert (succ idx) 3 1000 0 []).attempts,
          (retryUpsert (succ idx) 3 1000 0 []).delays⟩])
      refine ⟨?_, ?_, ?_⟩
      · intro t ht
        rcases iha t ht with hmem | hgood
        · rcases List.mem_append.mp hmem with hold | hnew
          · exact Or.inl hold
          · right
            have : t = ⟨(retryUpsert (succ idx) 3 1000 0 []).attempts,
                (retryUpsert (succ idx) 3 1000 0 []).delays⟩ := by
              simpa using hnew
            rw [this]
            exact hr.1
        · exact Or.inr hgood
      · intro hf
        rw [ihb hf]
        simp
      · intro hf
        obtain ⟨k, hk, hcom, hfail, hpre⟩ := ihc hf
        refine ⟨k + 1, by simpa using Nat.succ_lt_succ hk, ?_, ?_, ?_⟩
        · rw [hcom]
          simp [List.take_succ_cons, List.flatten_cons, List.append_assoc]
        · intro a ha
          have : idx + 1 + k = idx + (k + 1) := by omega
          rw [← this]
          exact hfail a ha
        · intro j hj
          cases j with
          | zero => simpa using hnotall
          | succ j =>
            have := hpre j (by omega)
            obtain ⟨a, ha, hs⟩ := this
            exact ⟨a, ha, by
              have : idx + 1 + j = idx + (j + 1) := by omega
              rw [← this]; exact hs⟩
    | false =>
      have hw : writeAllAux succ idx committed traces (b :: rest) =
          ⟨committed, traces ++ [⟨(retryUpsert (succ idx) 3 1000 0 []).attempts,
            (retryUpsert (succ idx) 3 1000 0 []).delays⟩], true⟩ := by
        simp only [writeAllAux, hok]
        simp
      rw [hw]
      refine ⟨?_, ?_, ?_⟩
      · intro t ht
        simp only [List.mem_append] at ht
        rcases ht with hold | hnew
        · exact Or.inl hold
        · right
          have : t = ⟨(retryUpsert (succ idx) 3 1000 0 []).attempts,
              (retryUpsert (succ idx) 3 1000 0 []).delays⟩ := by
            simpa using hnew
          rw [this]
          exact hr.1
      · intro hf
        simp at hf
      · intro _
        refine ⟨0, by simp, by simp, ?_, by omega⟩
        intro a ha
        have hiff := hr.2
        have hall := hiff.mp hok
        interval_cases a
        · exact hall.1
        · exact hall.2.1
        · exact hall.2.2

theorem writeAll_spec {α : Type} (succ : Nat → Nat → Bool) (batches : List (List α)) :
    (let w := writeAll succ batches
     (∀ t ∈ w.traces, t.attempts ≤ 3 ∧ t.delays = List.take (t.attempts - 1) [1000, 2000]) ∧
       (w.failed = false → w.committed = batches.flatten) ∧
       (w.failed = true →
         ∃ k, k < batches.length ∧ w.committed = (batches.take k).flatten ∧
           (∀ a, a < 3 → succ k a = false) ∧
           (∀ j, j < k → ∃ a, a < 3 ∧ succ j a = true))) := by
  obtain ⟨ha, hb, hc⟩ := writeAllAux_spec succ batches 0 [] []
  refine ⟨?_, ?_, ?_⟩
  · intro t ht
    rcases ha t ht with hmem | hgood
    · simp at hmem
    · exact hgood
  · intro hf
    simpa using hb hf
  · intro hf
    obtain ⟨k, hk, hcom, hfail, hpre⟩ := hc hf
    exact ⟨k, hk, by simpa using hcom, by simpa using hfail, by simpa using hpre⟩

theorem writeAll_alwaysOk {α : Type} (batches : List (List α)) :
    (writeAll (fun _ _ => true) batches).failed = false ∧
      (writeAll (fun _ _ => true) batches).committed = batches.flatten := by
  obtain ⟨_, hb, hc⟩ := writeAll_spec (fun _ _ => true) batches
  cases hfl : (writeAll (fun _ _ => true) batches).failed with
  | false => exact ⟨rfl, hb hfl⟩
  | true =>
    obtain ⟨k, _, _, hfail, _⟩ := hc hfl
    have := hfail 0 (by omega)
    simp at this

theorem containsSub_iff (l pat : List Char) :
    containsSub l pat = true ↔ ∃ pre suf, l = pre ++ pat ++ suf := by
  induction l with
  | nil =>
    simp only [containsSub, List.isEmpty_iff]
    constructor
    · intro h
      exact ⟨[], [], by simp [h]⟩
    · rintro ⟨pre, suf, h⟩
      have hlen := congrArg List.length h
      simp at hlen
      exact List.eq_nil_of_length_eq_zero (by omega)
  | cons x t ih =>
    simp only [containsSub, Bool.or_eq_true]
    rw [ih, List.isPrefixOf_iff_prefix]
    constructor
    · rintro (⟨suf, hsuf⟩ | ⟨pre, suf, h⟩)
      · exact ⟨[], suf, by simp [hsuf]⟩
      · exact ⟨x :: pre, suf, by simp [h]⟩
    · rintro ⟨pre, suf, h⟩
      cases pre with
      | nil =>
        left
        exact ⟨suf, by simpa using h.symm⟩
      | cons y pre =>
        right
        refine ⟨pre, suf, ?_⟩
        have := h
        simp only [List.cons_append] at this
        exact (List.cons.inj this).2

theorem takeWhile_ne_dot_eq_iff (r : List Char) :
    ∀ u : List Char, (∀ c ∈ u, c ≠ '.') →
      (List.takeWhile (fun c => c ≠ '.') r = u ↔
        (r = u ∨ ∃ rest, r = u ++ '.' :: rest)) := by
  induction r with
  | nil =>
    intro u _
    cases u with
    | nil => simp
    | cons a u' => simp
  | cons b r' ih =>
    intro u hu
    by_cases hb : b = '.'
    · subst hb
      have htw : List.takeWhile (fun c => c ≠ '.') ('.' :: r') = [] := by
        simp [List.takeWhile_cons]
      rw [htw]
      cases u with
      | nil =>
        simp only [List.nil_append]
        constructor
        · intro _
          exact Or.inr ⟨r', rfl⟩
        · intro _
          trivial
      | cons a u' =>
        have ha : a ≠ '.' := hu a (List.mem_cons_self a u')
        constructor
        · intro h
          exact absurd h (by simp)
        · rintro (h | ⟨rest, h⟩)
          · exact absurd ((List.cons.inj h).1).symm ha
          · simp only [List.cons_append] at h
            exact absurd ((List.cons.inj h).1).symm ha
    · have htw : List.takeWhile (fun c => c ≠ '.') (b :: r') =
          b :: List.takeWhile (fun c => c ≠ '.') r' := by
        simp [List.takeWhile_cons, hb]
      rw [htw]
      cases u with
      | nil =>
        constructor
        · intro h
          exact absurd h (by simp)
        · rintro (h | ⟨rest, h⟩)
          · exact absurd h (by simp)
          · simp only [List.nil_append] at h
            exact absurd ((List.cons.inj h).1) hb
      | cons a u' =>
        have hu' : ∀ c ∈ u', c ≠ '.' := fun c hc => hu c (List.mem_cons_of_mem a hc)
        rw [List.cons.injEq]
        rw [ih u' hu']
        constructor
        · rintro ⟨hba, h | ⟨rest, h⟩⟩
          · exact Or.inl (by rw [hba, h])
          · exact Or.inr ⟨rest, by rw [hba, h]; simp⟩
        · rintro (h | ⟨rest, h⟩)
          · obtain ⟨h1, h2⟩ := List.cons.inj h
            exact ⟨h1, Or.inl h2⟩
          · simp only [List.cons_append] at h
            obtain ⟨h1, h2⟩ := List.cons.inj h
            exact ⟨h1, Or.inr ⟨rest, h2⟩⟩

theorem lastExt_eq_iff (s : String) (t : List Char) (ht : ∀ c ∈ t, c ≠ '.') :
    lastExt s = String.mk t ↔ (s.data = t ∨ ∃ pre, s.data = pre ++ '.' :: t) := by
  have hinj : ∀ (l m : List Char), String.mk l = String.mk m ↔ l = m := by
    intro l m
    constructor
    · intro h
      exact congrArg String.data h
    · intro h
      rw [h]
  rw [show lastExt s = String.mk ((s.data.reverse.takeWhile (fun c => c ≠ '.')).reverse) from rfl]
  rw [hinj]
  rw [List.reverse_eq_iff]
  have hrev : ∀ c ∈ t.reverse, c ≠ '.' := fun c hc => ht c (List.mem_reverse.mp hc)
  rw [takeWhile_ne_dot_eq_iff s.data.reverse t.reverse hrev]
  constructor
  · rintro (h | ⟨rest, h⟩)
    · left
      have := congrArg List.reverse h
      simpa using this
    · right
      refine ⟨rest.reverse, ?_⟩
      have := congrArg List.reverse h
      simpa using this
  · rintro (h | ⟨pre, h⟩)
    · left
      rw [h]
    · right
      refine ⟨pre.reverse, ?_⟩
      rw [h]
      simp

theorem flatten_take_isPrefix {α : Type} (L : List (List α)) (k : Nat) :
    ((L.take k).flatten) <+: L.flatten := by
  refine ⟨(L.drop k).flatten, ?_⟩
  rw [← List.flatten_append, List.take_append_drop]

theorem withMetadata_length (documentId fileName uploadAt : String) (gen : Nat → String)
    (valid : List SplitChunk) :
    (withMetadata documentId fileName uploadAt gen valid).length = valid.length := by
  simp [withMetadata]

theorem withMetadata_chunkIndex (documentId fileName uploadAt : String) (gen : Nat → String)
    (valid : List SplitChunk) :
    (withMetadata documentId fileName uploadAt gen valid).map (fun c => c.chunkIndex) =
      List.range valid.length := by
  simp only [withMetadata, List.map_map]
  have : ((fun (c : ChunkWithMeta) => c.chunkIndex) ∘
      (fun (p : Nat × SplitChunk) =>
        (⟨gen p.1, jsTrim p.2.pageContent, documentId, p.1, fileName, uploadAt, p.2.page⟩ :
          ChunkWithMeta))) = Prod.fst := by
    funext p
    rfl
  rw [this, List.enum_map_fst]

theorem withMetadata_text (documentId fileName uploadAt : String) (gen : Nat → String)
    (chunks : List SplitChunk) :
    ∀ c ∈ withMetadata documentId fileName uploadAt gen (validChunksOf chunks),
      10 ≤ c.text.length ∧ ∃ orig ∈ chunks, c.text = jsTrim orig.pageContent := by
  intro c hc
  simp only [withMetadata, List.mem_map] at hc
  obtain ⟨p, hp, hpc⟩ := hc
  have hmem : p.2 ∈ validChunksOf chunks := List.snd_mem_of_mem_enum hp
  simp only [validChunksOf, List.mem_filter] at hmem
  obtain ⟨horig, hlen⟩ := hmem
  have htext : c.text = jsTrim p.2.pageContent := by rw [← hpc]
  constructor
  · rw [htext]
    exact Nat.le_of_ble_eq_true (by simpa using hlen)
  · exact ⟨p.2, horig, htext⟩

theorem validDataOf_dim (meta : List ChunkWithMeta) (vectors : List (List Int)) :
    ∀ p ∈ validDataOf meta vectors, p.vector.length = EXPECTED_DIMENSION := by
  intro p hp
  simp only [validDataOf, List.mem_filterMap] at hp
  obtain ⟨q, _, hq⟩ := hp
  cases hget : vectors.get? q.1 with
  | none => simp only [hget] at hq; exact absurd hq (by simp)
  | some v =>
    simp only [hget] at hq
    by_cases hv : v.length = EXPECTED_DIMENSION
    · rw [if_pos hv] at hq
      cases hq
      exact hv
    · rw [if_neg hv] at hq
      exact absurd hq (by simp)

theorem filterMap_valid_id (vectors : List (List Int)) :
    ∀ l : List (Nat × ChunkWithMeta),
    (l.filterMap (fun q =>
        match vectors.get? q.1 with
        | none => none
        | some v =>
          if v.length = EXPECTED_DIMENSION then
            some (⟨q.2.id, v, payloadOf q.2⟩ : Point)
          else none)).map (fun p => p.id) =
      (l.filter (fun q =>
        match vectors.get? q.1 with
        | none => false
        | some v => v.length = EXPECTED_DIMENSION)).map (fun q => q.2.id) := by
  intro l
  induction l with
  | nil => simp
  | cons q rest ih =>
    cases hget : vectors.get? q.1 with
    | none =>
      simp only [List.filterMap_cons, List.filter_cons, hget]
      simpa using ih
    | some v =>
      by_cases hv : v.length = EXPECTED_DIMENSION
      · simp only [List.filterMap_cons, List.filter_cons, hget, if_pos hv, hv,
          decide_eq_true_eq, if_true, List.map_cons]
        simp only [List.get?_eq_getElem?] at ih
        simp [ih]
      · simp only [List.filterMap_cons, List.filter_cons, hget, if_neg hv, hv]
        simp only [List.get?_eq_getElem?] at ih
        simp [ih, hv]

theorem validDataOf_id_eq (meta : List ChunkWithMeta) (vectors : List (List Int)) :
    (validDataOf meta vectors).map (fun p => p.id) =
      (meta.enum.filter (fun q =>
        match vectors.get? q.1 with
        | none => false
        | some v => v.length = EXPECTED_DIMENSION)).map (fun q => q.2.id) :=
  filterMap_valid_id vectors meta.enum

theorem processDocument_nil (documentId fileName uploadAt : String) (gen : Nat → String)
    (embedFn : List String → List (List Int)) (upsertOk : Nat → Nat → Bool) :
    processDocument [] documentId fileName uploadAt gen embedFn upsertOk =
      ⟨Except.error PipelineError.noChunks, [], [], []⟩ := rfl

theorem processDocument_noValidChunks (chunks : List SplitChunk)
    (documentId fileName uploadAt : String) (gen : Nat → String)
    (embedFn : List String → List (List Int)) (upsertOk : Nat → Nat → Bool)
    (h1 : chunks ≠ []) (h2 : validChunksOf chunks = []) :
    processDocument chunks documentId fileName uploadAt gen embedFn upsertOk =
      ⟨Except.error PipelineError.noValidChunks, [], [], []⟩ := by
  have e1 : chunks.isEmpty = false := by
    cases chunks with
    | nil => exact absurd rfl h1
    | cons a l => rfl
  simp [processDocument, e1, h2]

theorem processDocument_main (chunks : List SplitChunk)
    (documentId fileName uploadAt : String) (gen : Nat → String)
    (embedFn : List String → List (List Int)) (upsertOk : Nat → Nat → Bool)
    (h1 : chunks ≠ []) (h2 : validChunksOf chunks ≠ [])
    (h3 : validPointsOf chunks documentId fileName uploadAt gen embedFn ≠ []) :
    processDocument chunks documentId fileName uploadAt gen embedFn upsertOk =
      (let meta := pipelineMeta chunks documentId fileName uploadAt gen
       let w := writeAll upsertOk
         (sliceBatches (validPointsOf chunks documentId fileName uploadAt gen embedFn))
       if w.failed then
         ⟨Except.error PipelineError.upsertFailed, w.committed,
           sliceBatches (meta.map (fun c => c.text)), w.traces⟩
       else
         ⟨Except.ok ⟨true, documentId, (validChunksOf chunks).length,
             "Documento processado com sucesso!"⟩,
           w.committed, sliceBatches (meta.map (fun c => c.text)), w.traces⟩) := by
  have e1 : chunks.isEmpty = false := by
    cases chunks with
    | nil => exact absurd rfl h1
    | cons a l => rfl
  have e2 : (validChunksOf chunks).isEmpty = false := by
    cases hv : validChunksOf chunks with
    | nil => exact absurd hv h2
    | cons a l => rfl
  have e3 : (validDataOf (withMetadata documentId fileName uploadAt gen (validChunksOf chunks))
      (embedStage embedFn ((withMetadata documentId fileName uploadAt gen
        (validChunksOf chunks)).map (fun c => c.text))).2).isEmpty = false := by
    have h3' : validDataOf (withMetadata documentId fileName uploadAt gen (validChunksOf chunks))
        (embedStage embedFn ((withMetadata documentId fileName uploadAt gen
          (validChunksOf chunks)).map (fun c => c.text))).2 ≠ [] := h3
    cases hv : validDataOf (withMetadata documentId fileName uploadAt gen (validChunksOf chunks))
        (embedStage embedFn ((withMetadata documentId fileName uploadAt gen
          (validChunksOf chunks)).map (fun c => c.text))).2 with
    | nil => exact absurd hv h3'
    | cons a l => rfl
  simp only [processDocument, e1, e2, e3, Bool.false_eq_true, if_false]
  simp only [pipelineMeta, validPointsOf, embedStage]
  rw [withMetadata_length]

theorem processDocument_noValidVectors (chunks : List SplitChunk)
    (documentId fileName uploadAt : String) (gen : Nat → String)
    (embedFn : List String → List (List Int)) (upsertOk : Nat → Nat → Bool)
    (h1 : chunks ≠ []) (h2 : validChunksOf chunks ≠ [])
    (h3 : validPointsOf chunks documentId fileName uploadAt gen embedFn = []) :
    processDocument chunks documentId fileName uploadAt gen embedFn upsertOk =
      ⟨Except.error PipelineError.noValidVectors, [],
        sliceBatches ((pipelineMeta chunks documentId fileName uploadAt gen).map
          (fun c => c.text)), []⟩ := by
  have e1 : chunks.isEmpty = false := by
    cases chunks with
    | nil => exact absurd rfl h1
    | cons a l => rfl
  have e2 : (validChunksOf chunks).isEmpty = false := by
    cases hv : validChunksOf chunks with
    | nil => exact absurd hv h2
    | cons a l => rfl
  have e3 : (validDataOf (withMetadata documentId fileName uploadAt gen (validChunksOf chunks))
      (embedStage embedFn ((withMetadata documentId fileName uploadAt gen
        (validChunksOf chunks)).map (fun c => c.text))).2).isEmpty = true := by
    have h3' : validDataOf (withMetadata documentId fileName uploadAt gen (validChunksOf chunks))
        (embedStage embedFn ((withMetadata documentId fileName uploadAt gen
          (validChunksOf chunks)).map (fun c => c.text))).2 = [] := h3
    rw [h3']
    rfl
  simp only [processDocument, e1, e2, e3, Bool.false_eq_true, if_false, if_true]
  simp [pipelineMeta, embedStage]

/-! ## Claim theorems -/

/-- Claim C2: for every write batch the upsert runs at most 3 attempts, with
a 1000 ms delay after the first failure and a 2000 ms delay after the second;
a batch that succeeds on any attempt is committed and the loop moves on; when
all 3 attempts of a batch fail, the error propagates and aborts the ingestion
call, while every batch committed earlier stays persisted (the store contents
are a prefix of the valid points; there is no compensating rollback). -/
theorem C2_write_retry_policy (succ : Nat → Nat → Bool) (batches : List (List Point)) :
    (∀ t ∈ (writeAll succ batches).traces,
        t.attempts ≤ 3 ∧ t.delays = List.take (t.attempts - 1) [1000, 2000]) ∧
    ((writeAll succ batches).failed = false →
        (writeAll succ batches).committed = batches.flatten) ∧
    ((writeAll succ batches).failed = true →
      ∃ k, k < batches.length ∧
        (writeAll succ batches).committed = (batches.take k).flatten ∧
        (∀ a, a < 3 → succ k a = false) ∧
        (∀ j, j < k → ∃ a, a < 3 ∧ succ j a = true)) ∧
    (∀ (chunks : List SplitChunk) (documentId fileName uploadAt : String)
        (gen : Nat → String) (embedFn : List String → List (List Int)),
      (processDocument chunks documentId fileName uploadAt gen embedFn succ).result =
          Except.error PipelineError.upsertFailed →
        (processDocument chunks documentId fileName uploadAt gen embedFn succ).store <+:
          validPointsOf chunks documentId fileName uploadAt gen embedFn) := by
  obtain ⟨ha, hb, hc⟩ := writeAll_spec succ batches
  refine ⟨ha, hb, hc, ?_⟩
  intro chunks documentId fileName uploadAt gen embedFn hres
  by_cases h1 : chunks = []
  · subst h1
    rw [processDocument_nil] at hres
    exact absurd hres (by simp)
  by_cases h2 : validChunksOf chunks = []
  · rw [processDocument_noValidChunks chunks documentId fileName uploadAt gen embedFn succ h1 h2]
      at hres
    exact absurd hres (by simp)
  by_cases h3 : validPointsOf chunks documentId fileName uploadAt gen embedFn = []
  · rw [processDocument_noValidVectors chunks documentId fileName uploadAt gen embedFn succ
      h1 h2 h3] at hres
    exact absurd hres (by simp)
  rw [processDocument_main chunks documentId fileName uploadAt gen embedFn succ h1 h2 h3] at hres
  rw [processDocument_main chunks documentId fileName uploadAt gen embedFn succ h1 h2 h3]
  by_cases hfl : (writeAll succ
      (sliceBatches (validPointsOf chunks documentId fileName uploadAt gen embedFn))).failed = true
  · rw [if_pos hfl]
    obtain ⟨_, _, hc'⟩ := writeAll_spec succ
      (sliceBatches (validPointsOf chunks documentId fileName uploadAt gen embedFn))
    obtain ⟨k, _, hcom, _, _⟩ := hc' hfl
    show (writeAll succ
      (sliceBatches (validPointsOf chunks documentId fileName uploadAt gen embedFn))).committed <+: _
    rw [hcom]
    have := flatten_take_isPrefix
      (sliceBatches (validPointsOf chunks documentId fileName uploadAt gen embedFn)) k
    rwa [sliceBatches_flatten] at this
  · rw [if_neg hfl] at hres
    exact absurd hres (by simp)

/-- Witness for C2: with a store that fails every batch twice and succeeds
on the third attempt, the single batch is committed. -/
theorem C2_write_retry_policy_witness :
    (writeAll exSucc3rd [[exPoint]]).failed = false ∧
      (writeAll exSucc3rd [[exPoint]]).committed = [exPoint] := by
  have h := (C2_write_retry_policy exSucc3rd [[exPoint]]).2.1
  exact ⟨by decide, by simpa using h (by decide)⟩

/-- Claim C5: for n chunk texts the embedding stage issues ceil(n/50)
sequential calls, the first floor(n/50) of them carrying 50 texts and, when
50 does not divide n, a final call carrying n mod 50 texts; the calls
partition the input in order, and when the external function maps each text
to its vector, the concatenated output is exactly the input list mapped, so
vector i corresponds to text i. -/
theorem C5_embedding_batches (texts : List String)
    (embedFn : List String → List (List Int)) (f : String → List Int)
    (hne : texts ≠ []) :
    (embedStage embedFn texts).1.length = (texts.length + 49) / 50 ∧
    (embedStage embedFn texts).1.map List.length =
      List.replicate (texts.length / 50) 50 ++
        (if texts.length % 50 = 0 then [] else [texts.length % 50]) ∧
    (embedStage embedFn texts).1.flatten = texts ∧
    ((∀ b, (embedFn b).length = b.length) →
      (embedStage embedFn texts).2.length = texts.length) ∧
    (embedStage (List.map f) texts).2 = texts.map f ∧
    (∀ i, ((embedStage (List.map f) texts).2).get? i = (texts.get? i).map f) := by
  have hmap : (embedStage (List.map f) texts).2 = texts.map f := by
    show ((sliceBatches texts).map (List.map f)).flatten = texts.map f
    rw [← List.map_flatten, sliceBatches_flatten]
  refine ⟨sliceBatches_length texts, sliceBatches_map_length texts,
    sliceBatches_flatten texts, ?_, hmap, ?_⟩
  · intro hlen
    show ((sliceBatches texts).map embedFn).flatten.length = _
    rw [List.length_flatten, List.map_map]
    have heq : (sliceBatches texts).map (List.length ∘ embedFn) =
        (sliceBatches texts).map List.length := by
      apply List.map_congr_left
      intro b _
      exact hlen b
    rw [heq, ← List.length_flatten, sliceBatches_flatten]
  · intro i
    rw [hmap]
    simp

/-- Witness for C5: 120 texts produce 3 calls carrying 50, 50 and 20. -/
theorem C5_embedding_batches_witness :
    ((embedStage exEmbed384 (List.replicate 120 "t")).1.map List.length = [50, 50, 20]) ∧
      (embedStage exEmbed384 (List.replicate 120 "t")).1.length = 3 := by
  have h := C5_embedding_batches (List.replicate 120 "t") exEmbed384
    (fun _ => List.replicate 384 0) (by decide)
  constructor
  · rw [h.2.1]
    decide
  · rw [h.1]
    decide

/-- Claim C7: under both strategies an extraction whose cleaned text is
shorter than 100 characters fails with the content-too-short error and never
returns a ScrapedContent, and under the static-fetch strategy a non-200 HTTP
status yields the distinguishable HTTP-status error instead. -/
theorem C7_content_gate (url scrapedAt : String) (resolve : String → Option String)
    (clean : String → String) :
    (∀ status page, status ≠ 200 →
        cheerioScrape url scrapedAt resolve (HttpOutcome.response status page) =
          Except.error (ScrapeError.httpStatus status)) ∧
    (∀ page, page.cleanText.length < 100 →
        cheerioScrape url scrapedAt resolve (HttpOutcome.response 200 page) =
          Except.error (ScrapeError.tooShort page.cleanText.length)) ∧
    (∀ out sc, cheerioScrape url scrapedAt resolve out = Except.ok sc →
        100 ≤ sc.content.length) ∧
    (∀ d, (clean d.content).length < 100 →
        playwrightScrape url scrapedAt clean (some d) =
          Except.error (ScrapeError.tooShort (clean d.content).length)) ∧
    (∀ loaded sc, playwrightScrape url scrapedAt clean loaded = Except.ok sc →
        100 ≤ sc.content.length) := by
  refine ⟨?_, ?_, ?_, ?_, ?_⟩
  · intro status page hst
    by_cases hrange : status < 200 ∨ 300 ≤ status
    · simp [cheerioScrape, hrange]
    · simp [cheerioScrape, hrange, hst]
  · intro page hlen
    have hrange : ¬((200 : Nat) < 200 ∨ 300 ≤ (200 : Nat)) := by omega
    simp [cheerioScrape, hrange, hlen]
  · intro out sc hok
    cases out with
    | timedOut => exact absurd hok (by simp [cheerioScrape])
    | networkFailure => exact absurd hok (by simp [cheerioScrape])
    | response status page =>
      by_cases hrange : status < 200 ∨ 300 ≤ status
      · simp [cheerioScrape, hrange] at hok
      · by_cases hst : status = 200
        · subst hst
          by_cases hlen : page.cleanText.length < 100
          · simp [cheerioScrape, hrange, hlen] at hok
          · simp [cheerioScrape, hrange, hlen] at hok
            rw [← hok]
            dsimp only
            omega
        · simp [cheerioScrape, hrange, hst] at hok
  · intro d hlen
    simp [playwrightScrape, hlen]
  · intro loaded sc hok
    cases loaded with
    | none => exact absurd hok (by simp [playwrightScrape])
    | some d =>
      by_cases hlen : (clean d.content).length < 100
      · simp [playwrightScrape, hlen] at hok
      · simp [playwrightScrape, hlen] at hok
        rw [← hok]
        dsimp only
        omega

/-- Witness for C7: an HTTP 404 yields the HTTP-status error, and a 200
response whose cleaned text is 3 words yields the content-too-short error. -/
theorem C7_content_gate_witness :
    cheerioScrape "u" "t" exResolveNone (HttpOutcome.response 404 exShortPage) =
        Except.error (ScrapeError.httpStatus 404) ∧
      cheerioScrape "u" "t" exResolveNone (HttpOutcome.response 200 exShortPage) =
        Except.error (ScrapeError.tooShort 9) := by
  have h := C7_content_gate "u" "t" exResolveNone (fun s => s)
  refine ⟨h.1 404 exShortPage (by decide), ?_⟩
  have h2 := h.2.1 exShortPage (by decide)
  simpa using h2

/-- Counterexample to C8 as stated: an og:title meta that is present with
empty content does not yield the (trimmed) og:title content as the title —
the code's truthiness test skips it and falls through to the title tag; an
og:image meta present with empty content yields null instead of the
resolution fallback to the raw value.  The claim predicts some "" in both
positions. -/
theorem C8_metadata_truthiness_counterexample :
    extractTitle (some "") "MyTitle" "" = some "MyTitle" ∧
      some "MyTitle" ≠ some "" ∧
      extractOgImage (some "") exResolveNone = none ∧
      (none : Option String) ≠ some "" := by
  refine ⟨by decide, by decide, by decide, by decide⟩

/-- Claim C8 (amended): the extracted title is the trimmed og:title content
when the og:title meta is present with non-empty content, otherwise the
trimmed title-tag text when non-empty, otherwise the trimmed first-h1 text
when non-empty, otherwise null; og:image is null when the og:image meta is
absent or empty, and otherwise its value resolved against the page URL,
falling back to the raw value when resolution fails. -/
theorem C8_metadata_extraction_amended (og : Option String) (titleText h1Text : String)
    (resolve : String → Option String) :
    (∀ s, og = some s → s ≠ "" → extractTitle og titleText h1Text = some (jsTrim s)) ∧
    (jsTruthy og = false → titleText ≠ "" →
        extractTitle og titleText h1Text = some (jsTrim titleText)) ∧
    (jsTruthy og = false → titleText = "" → h1Text ≠ "" →
        extractTitle og titleText h1Text = some (jsTrim h1Text)) ∧
    (jsTruthy og = false → titleText = "" → h1Text = "" →
        extractTitle og titleText h1Text = none) ∧
    (∀ img, jsTruthy img = false → extractOgImage img resolve = none) ∧
    (∀ v, v ≠ "" →
        extractOgImage (some v) resolve = some ((resolve v).getD v)) := by
  refine ⟨?_, ?_, ?_, ?_, ?_, ?_⟩
  · rintro s rfl hs
    simp [extractTitle, jsTruthy, hs]
  · intro hog ht
    simp [extractTitle, hog, ht]
  · intro hog ht hh
    simp [extractTitle, hog, ht, hh]
  · intro hog ht hh
    simp [extractTitle, hog, ht, hh]
  · intro img himg
    simp [extractOgImage, himg]
  · intro v hv
    simp only [extractOgImage, jsTruthy, Option.getD_some]
    rw [if_pos (by simp [hv])]
    cases hres : resolve v with
    | none => simp [hres]
    | some abs => simp [hres]

/-- Witness for C8: a whitespace-padded og:title is trimmed, and an og:image
whose resolution fails falls back to its raw value. -/
theorem C8_metadata_extraction_witness :
    extractTitle (some " T ") "x" "y" = some "T" ∧
      extractOgImage (some "/img.png") exResolveNone = some "/img.png" := by
  constructor
  · have h := (C8_metadata_extraction_amended (some " T ") "x" "y" exResolveNone).1
      " T " rfl (by decide)
    rw [h]
    decide
  · have h := (C8_metadata_extraction_amended (some "/img.png") "x" "y" exResolveNone).2.2.2.2.2
      "/img.png" (by decide)
    rw [h]
    decide

/-- Counterexample to C3 as stated: the URL https://fedex.com/track has
domain fedex.com, which is not in PLAYWRIGHT_REQUIRED_DOMAINS, yet the
rendered (playwright) strategy is selected, because detectScraperEngine
tests whether any listed domain occurs as a substring anywhere in the
lowercased URL ("x.com" occurs inside "fedex.com"), not whether the URL's
domain equals a listed domain. -/
theorem C3_engine_substring_counterexample :
    detectScraperEngine "https://fedex.com/track" = ScraperEngine.playwright ∧
      urlDomain "https://fedex.com/track" = "fedex.com" ∧
      "fedex.com" ∉ PLAYWRIGHT_REQUIRED_DOMAINS ∧
      selectEngine none "https://fedex.com/track" = ScraperEngine.playwright := by
  refine ⟨by decide, by decide, by decide, by decide⟩

/-- Claim C3 (amended): strategy selection is a pure function of its inputs;
a supplied hint wins, and otherwise the rendered (playwright) strategy is
chosen exactly when some entry of the fixed domain list occurs as a
substring anywhere in the lowercased URL string (not only as its domain),
with the static-fetch (cheerio) strategy chosen for every other URL. -/
theorem C3_engine_selection_amended (url : String) (hint : Option ScraperEngine) :
    (∀ e, hint = some e → selectEngine hint url = e) ∧
    (hint = none →
      (selectEngine hint url = ScraperEngine.playwright ↔
        ∃ d ∈ PLAYWRIGHT_REQUIRED_DOMAINS,
          ∃ pre suf, (jsToLower url).data = pre ++ d.data ++ suf)) ∧
    (hint = none →
      (selectEngine hint url = ScraperEngine.cheerio ↔
        ¬∃ d ∈ PLAYWRIGHT_REQUIRED_DOMAINS,
          ∃ pre suf, (jsToLower url).data = pre ++ d.data ++ suf)) := by
  have hkey : (PLAYWRIGHT_REQUIRED_DOMAINS.any
      (fun domain => jsIncludes (jsToLower url) domain)) = true ↔
      ∃ d ∈ PLAYWRIGHT_REQUIRED_DOMAINS,
        ∃ pre suf, (jsToLower url).data = pre ++ d.data ++ suf := by
    rw [List.any_eq_true]
    constructor
    · rintro ⟨d, hd, hinc⟩
      obtain ⟨pre, suf, hps⟩ := (containsSub_iff (jsToLower url).data d.data).mp hinc
      exact ⟨d, hd, pre, suf, by simpa using hps⟩
    · rintro ⟨d, hd, pre, suf, hps⟩
      refine ⟨d, hd, (containsSub_iff (jsToLower url).data d.data).mpr ?_⟩
      exact ⟨pre, suf, by simpa using hps⟩
  refine ⟨?_, ?_, ?_⟩
  · rintro e rfl
    rfl
  · rintro rfl
    show detectScraperEngine url = ScraperEngine.playwright ↔ _
    rw [← hkey]
    unfold detectScraperEngine
    by_cases h : (PLAYWRIGHT_REQUIRED_DOMAINS.any
        (fun domain => jsIncludes (jsToLower url) domain)) = true
    · simp [h]
    · simp [h]
  · rintro rfl
    show detectScraperEngine url = ScraperEngine.cheerio ↔ _
    rw [← hkey]
    unfold detectScraperEngine
    by_cases h : (PLAYWRIGHT_REQUIRED_DOMAINS.any
        (fun domain => jsIncludes (jsToLower url) domain)) = true
    · simp [h]
    · simp [h]

/-- Witness for C3: a URL on twitter.com selects the rendered strategy, and
a supplied hint overrides detection. -/
theorem C3_engine_selection_witness :
    selectEngine none "https://twitter.com/anyuser" = ScraperEngine.playwright ∧
      selectEngine (some ScraperEngine.cheerio) "https://twitter.com/anyuser" =
        ScraperEngine.cheerio := by
  constructor
  · exact ((C3_engine_selection_amended "https://twitter.com/anyuser" none).2.1 rfl).mpr
      ⟨"twitter.com", by decide, "https://".data, "/anyuser".data, by decide⟩
  · exact (C3_engine_selection_amended "https://twitter.com/anyuser"
      (some ScraperEngine.cheerio)).1 ScraperEngine.cheerio rfl

theorem string_eq_iff_data (s t : String) : s = t ↔ s.data = t.data := by
  constructor
  · intro h
    rw [h]
  · intro h
    cases s
    cases t
    exact congrArg String.mk h

theorem lastExt_eq_word_iff (s w : String) (hw : ∀ c ∈ w.data, c ≠ '.') :
    lastExt s = w ↔ (jsEndsWith s ("." ++ w) = true ∨ s = w) := by
  have hmk : String.mk w.data = w := by
    cases w
    rfl
  have h1 := lastExt_eq_iff s w.data hw
  rw [hmk] at h1
  rw [h1]
  have hdot : ("." ++ w).data = '.' :: w.data := by
    cases w
    rfl
  constructor
  · rintro (h | ⟨pre, h⟩)
    · exact Or.inr ((string_eq_iff_data s w).mpr h)
    · left
      rw [jsEndsWith, List.isSuffixOf_iff_suffix, hdot]
      exact ⟨pre, h.symm⟩
  · rintro (h | h)
    · rw [jsEndsWith, List.isSuffixOf_iff_suffix, hdot] at h
      obtain ⟨pre, hpre⟩ := h
      exact Or.inr ⟨pre, hpre.symm⟩
    · exact Or.inl ((string_eq_iff_data s w).mp h)

/-- Counterexample to C9 as stated: the locator "pdf" does not start with an
HTTP scheme and has no .pdf extension, yet loader selection returns the PDF
loader instead of failing with the unsupported-type error, because
split(".").pop() of a dotless name returns the whole name. -/
theorem C9_dotless_locator_counterexample :
    createLoaderFromFileName "pdf" = Except.ok LoaderKind.pdfLoader ∧
      hasExtension "pdf" "pdf" = false ∧
      jsStartsWith "pdf" "http://" = false ∧
      jsStartsWith "pdf" "https://" = false := by
  refine ⟨by decide, by decide, by decide, by decide⟩

/-- Claim C9 (amended): loader selection returns the URL loader exactly when
the locator starts with http:// or https://; otherwise the PDF loader is
selected exactly when the lowercased locator ends in ".pdf" or is the bare
word "pdf", the EPUB loader exactly when it ends in ".epub" or is the bare
word "epub" (the segment after the last dot decides, and a dotless locator
is its own segment), and every other locator fails with the
unsupported-type error; the factory maps the detected type to the matching
loader and propagates the error, never falling through to a wrong loader. -/
theorem C9_loader_selection_amended (f : String) :
    (detectDocumentType f = Except.ok DocumentType.url ↔
      (jsStartsWith f "http://" || jsStartsWith f "https://") = true) ∧
    ((jsStartsWith f "http://" || jsStartsWith f "https://") = false →
      ((detectDocumentType f = Except.ok DocumentType.pdf ↔
          (hasExtension f "pdf" = true ∨ jsToLower f = "pdf")) ∧
       (detectDocumentType f = Except.ok DocumentType.epub ↔
          (hasExtension f "epub" = true ∨ jsToLower f = "epub")) ∧
       ((∃ msg, detectDocumentType f = Except.error msg) ↔
          (¬(hasExtension f "pdf" = true ∨ jsToLower f = "pdf") ∧
           ¬(hasExtension f "epub" = true ∨ jsToLower f = "epub"))))) ∧
    (∀ t, detectDocumentType f = Except.ok t →
        createLoaderFromFileName f = Except.ok (createLoader t)) ∧
    (∀ msg, detectDocumentType f = Except.error msg →
        createLoaderFromFileName f = Except.error msg) := by
  have hpdf : lastExt (jsToLower f) = "pdf" ↔
      (hasExtension f "pdf" = true ∨ jsToLower f = "pdf") :=
    lastExt_eq_word_iff (jsToLower f) "pdf" (by decide)
  have hepub : lastExt (jsToLower f) = "epub" ↔
      (hasExtension f "epub" = true ∨ jsToLower f = "epub") :=
    lastExt_eq_word_iff (jsToLower f) "epub" (by decide)
  refine ⟨?_, ?_, ?_, ?_⟩
  · by_cases hs : (jsStartsWith f "http://" || jsStartsWith f "https://") = true
    · simp [detectDocumentType, hs]
    · simp only [detectDocumentType, hs, Bool.false_eq_true, if_false]
      constructor
      · intro h
        by_cases e1 : lastExt (jsToLower f) = "pdf"
        · simp [e1] at h
        · by_cases e2 : lastExt (jsToLower f) = "epub"
          · simp [e1, e2] at h
          · simp [e1, e2] at h
      · intro h
        exact h.elim
  · intro hs
    rw [← hpdf, ← hepub]
    by_cases e1 : lastExt (jsToLower f) = "pdf"
    · have e2 : lastExt (jsToLower f) ≠ "epub" := by
        rw [e1]
        decide
      simp [detectDocumentType, hs, e1, e2]
    · by_cases e2 : lastExt (jsToLower f) = "epub"
      · simp [detectDocumentType, hs, e1, e2]
      · simp [detectDocumentType, hs, e1, e2]
  · intro t h
    rw [createLoaderFromFileName, h]
    rfl
  · intro msg h
    rw [createLoaderFromFileName, h]
    rfl

/-- Witness for C9: an http URL, an uppercase .PDF file, a .epub file and an
unsupported .txt file are each routed as the amended claim states. -/
theorem C9_loader_selection_witness :
    detectDocumentType "book.pdf" = Except.ok DocumentType.pdf ∧
      detectDocumentType "https://a.io/x" = Except.ok DocumentType.url ∧
      createLoaderFromFileName "notes.txt" =
        Except.error "Tipo de arquivo não suportado: txt. Suportados: PDF, EPUB, URL" := by
  refine ⟨?_, ?_, ?_⟩
  · exact ((C9_loader_selection_amended "book.pdf").2.1 (by decide)).1.mpr (Or.inl (by decide))
  · exact (C9_loader_selection_amended "https://a.io/x").1.mpr (by decide)
  · exact (C9_loader_selection_amended "notes.txt").2.2.2
      "Tipo de arquivo não suportado: txt. Suportados: PDF, EPUB, URL" (by decide)

/-- Claim C10: extension matching is case-insensitive — two locators that
agree up to letter case and carry no literal lowercase scheme are routed
identically, so book.PDF and book.Epub select the PDF and EPUB loaders —
while the scheme check is case-sensitive: a locator beginning HTTP:// or
Https:// is not detected as a URL and is routed by its extension, failing
with the unsupported-type error when that extension is unrecognized. -/
theorem C10_case_sensitivity :
    (∀ f g : String, jsToLower f = jsToLower g →
      (jsStartsWith f "http://" || jsStartsWith f "https://") = false →
      (jsStartsWith g "http://" || jsStartsWith g "https://") = false →
      detectDocumentType f = detectDocumentType g) ∧
    createLoaderFromFileName "book.PDF" = Except.ok LoaderKind.pdfLoader ∧
    createLoaderFromFileName "book.Epub" = Except.ok LoaderKind.epubLoader ∧
    (jsStartsWith "HTTP://example.com" "http://" = false ∧
      jsStartsWith "HTTP://example.com" "https://" = false) ∧
    detectDocumentType "HTTP://example.com" =
      Except.error "Tipo de arquivo não suportado: com. Suportados: PDF, EPUB, URL" ∧
    (jsStartsWith "Https://example.com" "http://" = false ∧
      jsStartsWith "Https://example.com" "https://" = false) ∧
    detectDocumentType "Https://example.com" =
      Except.error "Tipo de arquivo não suportado: com. Suportados: PDF, EPUB, URL" := by
  refine ⟨?_, by decide, by decide, by decide, by decide, by decide, by decide⟩
  intro f g hlow hf hg
  simp only [detectDocumentType, hf, hg, Bool.false_eq_true, if_false, hlow]

/-- Witness for C10: a.PDF and A.pdf are routed identically. -/
theorem C10_case_sensitivity_witness :
    detectDocumentType "a.PDF" = detectDocumentType "A.pdf" :=
  C10_case_sensitivity.1 "a.PDF" "A.pdf" (by decide) (by decide) (by decide)

/-- Counterexample to C4 as stated: when the splitter produces zero chunks,
zero chunks survive the filter, but the call fails with the earlier
no-chunks-generated error, not the no-valid-chunks error. -/
theorem C4_empty_split_counterexample :
    (processDocument [] "d" "f" "t" exGenSingle exEmbed384 exUpsert).result =
        Except.error PipelineError.noChunks ∧
      PipelineError.noChunks ≠ PipelineError.noValidChunks := by
  refine ⟨by decide, by decide⟩

/-- Claim C4 (amended): every chunk whose trimmed text is shorter than 10
characters is removed before indices are assigned, so every surviving chunk
has a (trimmed) text of length at least 10 and the chunkIndex values are
exactly 0..k-1; when the split produced at least one chunk but none survive
the filter, the call fails with the no-valid-chunks error (an empty split
output fails earlier with the distinct no-chunks error). -/
theorem C4_chunk_filter_amended (chunks : List SplitChunk)
    (documentId fileName uploadAt : String) (gen : Nat → String)
    (embedFn : List String → List (List Int)) (upsertOk : Nat → Nat → Bool) :
    (chunks ≠ [] → validChunksOf chunks = [] →
      (processDocument chunks documentId fileName uploadAt gen embedFn upsertOk).result =
        Except.error PipelineError.noValidChunks) ∧
    (chunks = [] →
      (processDocument chunks documentId fileName uploadAt gen embedFn upsertOk).result =
        Except.error PipelineError.noChunks) ∧
    (∀ c ∈ pipelineMeta chunks documentId fileName uploadAt gen, 10 ≤ c.text.length) ∧
    ((pipelineMeta chunks documentId fileName uploadAt gen).map (fun c => c.chunkIndex) =
      List.range (validChunksOf chunks).length) ∧
    (∀ c ∈ validChunksOf chunks, 10 ≤ (jsTrim c.pageContent).length) := by
  refine ⟨?_, ?_, ?_, ?_, ?_⟩
  · intro h1 h2
    rw [processDocument_noValidChunks chunks documentId fileName uploadAt gen embedFn upsertOk
      h1 h2]
  · rintro rfl
    rw [processDocument_nil]
  · intro c hc
    exact (withMetadata_text documentId fileName uploadAt gen chunks c hc).1
  · exact withMetadata_chunkIndex documentId fileName uploadAt gen (validChunksOf chunks)
  · intro c hc
    simp only [validChunksOf, List.mem_filter] at hc
    exact Nat.le_of_ble_eq_true (by simpa using hc.2)

/-- Witness for C4: of two split chunks, one 4 characters long and one 10
characters long, only the long one survives, it keeps index 0, and a split
set whose only chunk is too short fails with the no-valid-chunks error. -/
theorem C4_chunk_filter_witness :
    (processDocument [⟨"tiny", none⟩] "d" "f" "t" exGenSingle exEmbed384 exUpsert).result =
        Except.error PipelineError.noValidChunks ∧
      (pipelineMeta [⟨"tiny", none⟩, ⟨"abcdefghij", none⟩] "d" "f" "t" exGenSingle).map
          (fun c => c.chunkIndex) =
        List.range (validChunksOf [⟨"tiny", none⟩, ⟨"abcdefghij", none⟩]).length := by
  constructor
  · exact (C4_chunk_filter_amended [⟨"tiny", none⟩] "d" "f" "t" exGenSingle exEmbed384
      exUpsert).1 (by decide) (by decide)
  · exact (C4_chunk_filter_amended [⟨"tiny", none⟩, ⟨"abcdefghij", none⟩] "d" "f" "t"
      exGenSingle exEmbed384 exUpsert).2.2.2.1

theorem validPointsOf_ne_nil_facts (chunks : List SplitChunk)
    (documentId fileName uploadAt : String) (gen : Nat → String)
    (embedFn : List String → List (List Int))
    (h : validPointsOf chunks documentId fileName uploadAt gen embedFn ≠ []) :
    chunks ≠ [] ∧ validChunksOf chunks ≠ [] := by
  constructor
  · rintro rfl
    exact h rfl
  · intro hv
    apply h
    show validDataOf (withMetadata documentId fileName uploadAt gen (validChunksOf chunks)) _ = []
    rw [hv]
    rfl

set_option maxRecDepth 100000 in
/-- Counterexample to C1 as stated: two chunks survive the filter, the
embedding service returns a 384-dimensional vector for the first and a
256-dimensional one for the second, every upsert succeeds; the call
succeeds and commits exactly one point, but the returned chunksCount is 2,
the pre-validation chunk count, not the number of committed points. -/
theorem C1_chunksCount_counterexample :
    (processDocument exChunks "doc" "f.pdf" "t0" exGen exEmbed exUpsert).result =
        Except.ok ⟨true, "doc", 2, "Documento processado com sucesso!"⟩ ∧
      (processDocument exChunks "doc" "f.pdf" "t0" exGen exEmbed exUpsert).store.length = 1 ∧
      (exEmbed ["abcdefghij", "0123456789"]).map List.length = [384, 256] := by
  refine ⟨by decide, by decide, by decide⟩

/-- Claim C1 (amended): in an ingestion call where at least one embedding
vector passes the 384-dimension validation (in particular when some but not
all fail it) and the store accepts every upsert, the call succeeds, exactly
the chunks whose vectors have 384 components are committed, and the returned
chunksCount is the number of chunks that survived the length filter — the
chunks whose vectors were dropped are still included in that count, so it
exceeds the number of committed points whenever a vector was dropped. -/
theorem C1_dimension_validation_amended (chunks : List SplitChunk)
    (documentId fileName uploadAt : String) (gen : Nat → String)
    (embedFn : List String → List (List Int))
    (hvalid : validPointsOf chunks documentId fileName uploadAt gen embedFn ≠ []) :
    (processDocument chunks documentId fileName uploadAt gen embedFn exUpsert).result =
        Except.ok ⟨true, documentId, (validChunksOf chunks).length,
          "Documento processado com sucesso!"⟩ ∧
    (processDocument chunks documentId fileName uploadAt gen embedFn exUpsert).store =
        validPointsOf chunks documentId fileName uploadAt gen embedFn ∧
    (∀ p ∈ (processDocument chunks documentId fileName uploadAt gen embedFn exUpsert).store,
        p.vector.length = EXPECTED_DIMENSION) ∧
    (processDocument chunks documentId fileName uploadAt gen embedFn exUpsert).store.length ≤
        (validChunksOf chunks).length := by
  obtain ⟨h1, h2⟩ := validPointsOf_ne_nil_facts chunks documentId fileName uploadAt gen
    embedFn hvalid
  have hmain := processDocument_main chunks documentId fileName uploadAt gen embedFn exUpsert
    h1 h2 hvalid
  obtain ⟨hfl, hcom⟩ := writeAll_alwaysOk
    (sliceBatches (validPointsOf chunks documentId fileName uploadAt gen embedFn))
  have hfl' : (writeAll exUpsert
      (sliceBatches (validPointsOf chunks documentId fileName uploadAt gen embedFn))).failed =
      false := hfl
  rw [hmain]
  simp only [hfl', Bool.false_eq_true, if_false]
  have hstore : (writeAll exUpsert
      (sliceBatches (validPointsOf chunks documentId fileName uploadAt gen embedFn))).committed =
      validPointsOf chunks documentId fileName uploadAt gen embedFn := by
    have : (writeAll exUpsert
        (sliceBatches (validPointsOf chunks documentId fileName uploadAt gen embedFn))).committed =
        (sliceBatches (validPointsOf chunks documentId fileName uploadAt gen embedFn)).flatten :=
      hcom
    rw [this, sliceBatches_flatten]
  refine ⟨by trivial, hstore, ?_, ?_⟩
  · intro p hp
    rw [hstore] at hp
    exact validDataOf_dim _ _ p hp
  · rw [hstore]
    show (validDataOf (pipelineMeta chunks documentId fileName uploadAt gen) _).length ≤ _
    calc (validDataOf (pipelineMeta chunks documentId fileName uploadAt gen)
          (embedStage embedFn ((pipelineMeta chunks documentId fileName uploadAt gen).map
            (fun c => c.text))).2).length
        ≤ (pipelineMeta chunks documentId fileName uploadAt gen).enum.length :=
          List.length_filterMap_le _ _
      _ = (pipelineMeta chunks documentId fileName uploadAt gen).length := List.enum_length
      _ = (validChunksOf chunks).length :=
          withMetadata_length documentId fileName uploadAt gen (validChunksOf chunks)

set_option maxRecDepth 100000 in
/-- Witness for C1: on the mixed-validity fixture the call succeeds with
chunksCount 2 while a single 384-dimensional point is committed. -/
theorem C1_dimension_validation_witness :
    (processDocument exChunks "doc" "f.pdf" "t0" exGen exEmbed exUpsert).result =
        Except.ok ⟨true, "doc", (validChunksOf exChunks).length,
          "Documento processado com sucesso!"⟩ ∧
      (processDocument exChunks "doc" "f.pdf" "t0" exGen exEmbed exUpsert).store =
        validPointsOf exChunks "doc" "f.pdf" "t0" exGen exEmbed :=
  ⟨(C1_dimension_validation_amended exChunks "doc" "f.pdf" "t0" exGen exEmbed (by decide)).1,
   (C1_dimension_validation_amended exChunks "doc" "f.pdf" "t0" exGen exEmbed (by decide)).2.1⟩

set_option maxRecDepth 100000 in
/-- Claim C6, evaluated against the code: the payload stored with each point
carries exactly the keys text, documentId, chunkIndex, fileName, uploadAt
and page, in that order, and the point id is the chunk's freshly generated
id; the key uploadedAt named by the claim (and by the DocumentChunk
interface of the repository's types module) is absent — the code writes
uploadAt instead. -/
theorem C6_payload_field_bug :
    (payloadOf ⟨"cid", "texttexttext", "doc", 0, "f.pdf", "2026-01-01T00:00:00.000Z",
        some 3⟩).map Prod.fst =
      ["text", "documentId", "chunkIndex", "fileName", "uploadAt", "page"] ∧
    "uploadedAt" ∉ (payloadOf ⟨"cid", "texttexttext", "doc", 0, "f.pdf",
        "2026-01-01T00:00:00.000Z", some 3⟩).map Prod.fst ∧
    (processDocument exChunkSingle "doc" "f.pdf" "t0" exGenSingle exEmbed384 exUpsert).store.map
        (fun p => p.id) = ["chunk-id-0"] ∧
    (processDocument exChunkSingle "doc" "f.pdf" "t0" exGenSingle exEmbed384
        exUpsert).store.map (fun p => p.payload.map Prod.fst) =
      [["text", "documentId", "chunkIndex", "fileName", "uploadAt", "page"]] := by
  refine ⟨by decide, by decide, by decide, by decide⟩
